import Mathlib

/-!
# DNA-ETL: verification of the specification against the source

A shallow embedding of the DNA-ETL pipeline (a Python ETL that validates,
extracts, transforms and persists per-participant genetic records) together
with proofs settling the frozen claims about it.

Conventions used throughout:
* Python `str` values are embedded as `String` when only compared/measured,
  and as `List Char` where the code indexes and slices them (DNA sequences).
* Python dictionaries are embedded as insertion-ordered association lists,
  which matches CPython's dict semantics (insertion order preserved,
  in-place update keeps a key's position, new keys are appended).
* Exceptions are embedded as `Except` values; an exception that merely
  propagates through a caller is represented by the same `Except.error`.
* Filesystem reads/writes are abstracted into explicit environment records:
  a field such as `dnaFileExists` stands for the outcome of the
  corresponding `Path.exists()` call in the source.
-/

/-- The exceptions that can cross stage boundaries during a pipeline run.
Constructors mirror the classes of `src/Exceptions/ValidateExceptions.py`
plus the runtime exceptions that the source lets propagate
(`json.JSONDecodeError` from `json.load`, `ZeroDivisionError` from the GC
computation) and the loader's typed error. -/
inductive PyExc where
  | inputFileDoesNotExist (path : String)
  | invalidInputKeys (path : String)
  | invalidUUID (u : String)
  | contextPathDoesNotExist (path : String)
  | dataFileDoesNotExist (path : String)
  | loaderException (participant_id : String)
  | jsonDecodeError (path : String)
  | zeroDivisionError
  deriving DecidableEq, Repr

/-! ## Insertion-ordered dictionaries with `List Char` keys and `Nat` values

These model the codon dictionaries of `DNAProcessor` (the per-sequence
`codons` dict and the instance-level `codon_frequencies` accumulator). -/

/-- A Python `dict` mapping codons to counts, as an insertion-ordered
association list. -/
abbrev CodonDict := List (List Char × Nat)

/-- `d.get(k, 0)`: value of the first entry with key `k`, else `0`. -/
def dictGet : CodonDict → List Char → Nat
  | [], _ => 0
  | (k, v) :: rest, c => if k = c then v else dictGet rest c

/-- `k in d`. -/
def containsKey : CodonDict → List Char → Bool
  | [], _ => false
  | (k, _) :: rest, c => if k = c then true else containsKey rest c

/-- `d[k] = d.get(k, 0) + 1`: CPython updates an existing key in place
(keeping its position) and appends a missing key at the end. -/
def bump (d : CodonDict) (k : List Char) : CodonDict :=
  if containsKey d k then
    d.map (fun kv => if kv.1 = k then (kv.1, kv.2 + 1) else kv)
  else
    d ++ [(k, 1)]

theorem dictGet_of_not_containsKey {d : CodonDict} {c : List Char}
    (h : containsKey d c = false) : dictGet d c = 0 := by
  induction d with
  | nil => rfl
  | cons kv rest ih =>
    obtain ⟨k, v⟩ := kv
    by_cases hk : k = c
    · simp [containsKey, hk] at h
    · simp only [containsKey, hk, if_false] at h
      simp [dictGet, hk, ih h]

theorem mapBump_head (k k' : List Char) (v' : Nat) :
    (if (Prod.mk k' v').1 = k then ((Prod.mk k' v').1, (Prod.mk k' v').2 + 1) else (k', v'))
      = (k', if k' = k then v' + 1 else v') := by
  by_cases h : k' = k <;> simp [h]

theorem dictGet_mapBump_ne (d : CodonDict) {k c : List Char} (h : c ≠ k) :
    dictGet (d.map (fun kv => if kv.1 = k then (kv.1, kv.2 + 1) else kv)) c
      = dictGet d c := by
  induction d with
  | nil => rfl
  | cons kv rest ih =>
    obtain ⟨k', v'⟩ := kv
    rw [List.map_cons, mapBump_head]
    by_cases hc : k' = c
    · subst hc
      have : ¬(k' = k) := fun hk => h (hk ▸ rfl)
      simp [dictGet, this]
    · simp [dictGet, hc, ih]

theorem dictGet_mapBump_eq (d : CodonDict) (k : List Char) :
    dictGet (d.map (fun kv => if kv.1 = k then (kv.1, kv.2 + 1) else kv)) k
      = dictGet d k + (if containsKey d k = true then 1 else 0) := by
  induction d with
  | nil => rfl
  | cons kv rest ih =>
    obtain ⟨k', v'⟩ := kv
    rw [List.map_cons, mapBump_head]
    by_cases hk : k' = k
    · subst hk
      simp [dictGet, containsKey]
    · simp [dictGet, containsKey, hk, ih]

theorem dictGet_append_ne (d : CodonDict) {k c : List Char} (h : c ≠ k) :
    dictGet (d ++ [(k, 1)]) c = dictGet d c := by
  induction d with
  | nil =>
    have : k ≠ c := fun hc => h hc.symm
    simp [dictGet, this]
  | cons kv rest ih =>
    obtain ⟨k', v'⟩ := kv
    by_cases hc : k' = c
    · simp [dictGet, hc]
    · simp [dictGet, hc, ih]

theorem dictGet_append_eq {d : CodonDict} {k : List Char}
    (h : containsKey d k = false) : dictGet (d ++ [(k, 1)]) k = 1 := by
  induction d with
  | nil => simp [dictGet]
  | cons kv rest ih =>
    obtain ⟨k', v'⟩ := kv
    by_cases hk : k' = k
    · simp [containsKey, hk] at h
    · simp only [containsKey, hk, if_false] at h
      simp [dictGet, hk, ih h]

theorem dictGet_bump (d : CodonDict) (k c : List Char) :
    dictGet (bump d k) c = dictGet d c + (if c = k then 1 else 0) := by
  by_cases hmem : containsKey d k = true
  · by_cases hc : c = k
    · subst hc
      simp [bump, hmem, dictGet_mapBump_eq]
    · simp [bump, hmem, dictGet_mapBump_ne d hc, hc]
  · have hmem' : containsKey d k = false := by
      cases h : containsKey d k
      · rfl
      · exact absurd h hmem
    by_cases hc : c = k
    · subst hc
      simp [bump, hmem', dictGet_append_eq hmem', dictGet_of_not_containsKey hmem']
    · simp [bump, hmem', dictGet_append_ne d hc, hc]

theorem dictGet_foldl_bump :
    (l : List (List Char)) → (d : CodonDict) → (c : List Char) →
      dictGet (l.foldl bump d) c = dictGet d c + l.count c
  | [], d, c => by simp
  | x :: l, d, c => by
    simp only [List.foldl_cons]
    rw [dictGet_foldl_bump l (bump d x) c, dictGet_bump]
    rw [List.count_cons]
    by_cases hc : c = x
    · simp [hc]
      omega
    · simp [hc]
      exact fun h => hc h.symm

/-! ## DNAProcessor (`src/Pipeline/Transform/DNAProcessor.py`)

DNA sequences are `List Char`.  `_analyze_sequence` iterates
`for i in range(0, len(sequence) - (len(sequence) % 3) - 2, 3)` and slices
`sequence[i : i + 3]`; the stop bound is computed in `Int` because Python's
subtraction can go negative (giving an empty range). -/

/-- `len(sequence) - (len(sequence) % 3) - 2`, over `Int` as in Python. -/
def codonStop (n : Nat) : Int := (n : Int) - (n : Int) % 3 - 2

/-- The indices visited by `range(0, codonStop n, 3)`. -/
def codonIndices (n : Nat) : List Nat :=
  (List.range n).filter (fun i => decide (i % 3 = 0 ∧ (i : Int) < codonStop n))

/-- Python slice `sequence[i : i + 3]`. -/
def sliceAt (s : List Char) (i : Nat) : List Char := (s.drop i).take 3

/-- The codons extracted by the loop of `_analyze_sequence`, in loop order. -/
def codonList (s : List Char) : List (List Char) :=
  (codonIndices s.length).map (sliceAt s)

/-- Spec-side mirror of the codon table contract: the non-overlapping
triplets starting at index 0, with a trailing 1- or 2-character remainder
discarded. -/
def chunks3 : List Char → List (List Char)
  | a :: b :: c :: rest => [a, b, c] :: chunks3 rest
  | _ => []

theorem codonIndices_add3 (m : Nat) :
    codonIndices (3 + m) = 0 :: (codonIndices m).map (3 + ·) := by
  unfold codonIndices
  rw [List.range_add, List.filter_append, List.filter_map]
  have e0 : (decide ((0:Nat) % 3 = 0 ∧ ((0:Nat) : Int) < codonStop (3 + m))) = true := by
    rw [decide_eq_true_eq]
    refine ⟨rfl, ?_⟩
    unfold codonStop
    push_cast
    omega
  have e1 : (decide ((1:Nat) % 3 = 0 ∧ ((1:Nat) : Int) < codonStop (3 + m))) = false := by
    rw [decide_eq_false_iff_not]
    intro h
    omega
  have e2 : (decide ((2:Nat) % 3 = 0 ∧ ((2:Nat) : Int) < codonStop (3 + m))) = false := by
    rw [decide_eq_false_iff_not]
    intro h
    omega
  have hr3 : List.range 3 = [0, 1, 2] := rfl
  rw [hr3, List.filter_cons, List.filter_cons, List.filter_cons, List.filter_nil, e0, e1, e2]
  rw [if_pos rfl, if_neg (fun h => Bool.noConfusion h), if_neg (fun h => Bool.noConfusion h)]
  show 0 :: _ = 0 :: _
  congr 1
  show [] ++ _ = _
  rw [List.nil_append]
  congr 1
  apply List.filter_congr
  intro i _
  show decide _ = decide _
  rw [decide_eq_decide]
  unfold codonStop
  push_cast
  omega

theorem codonList_eq_chunks3 : (s : List Char) → codonList s = chunks3 s
  | [] => rfl
  | [a] => rfl
  | [a, b] => rfl
  | a :: b :: c :: rest => by
    show codonList (a :: b :: c :: rest) = [a, b, c] :: chunks3 rest
    unfold codonList
    have hl : (a :: b :: c :: rest).length = 3 + rest.length := by
      simp [List.length_cons]
      omega
    rw [hl, codonIndices_add3]
    simp only [List.map_cons, List.map_map]
    have h1 : sliceAt (a :: b :: c :: rest) 0 = [a, b, c] := rfl
    rw [h1]
    congr 1
    rw [← codonList_eq_chunks3 rest]
    unfold codonList
    apply List.map_congr_left
    intro i _
    simp only [Function.comp_apply]
    unfold sliceAt
    rw [show 3 + i = i + 1 + 1 + 1 from by omega]
    rw [List.drop_succ_cons, List.drop_succ_cons, List.drop_succ_cons]

/-- The per-sequence `codons` dictionary built by the loop of
`_analyze_sequence` (DNAProcessor.py lines 81-84), starting from `{}`. -/
def countCodons (s : List Char) : CodonDict :=
  (codonList s).foldl bump []

/-- `gc_count`: the loop counting characters equal to `G` or `C`. -/
def gcCount (s : List Char) : Nat :=
  s.foldl (fun n nuc => if nuc = 'G' ∨ nuc = 'C' then n + 1 else n) 0

/-- Python's `round(x, 2)` on the exact rational value.  (Python rounds a
binary float half-to-even; no claim depends on the rounded digits, only on
the division itself, so the exact-rational rounding is used here.) -/
def pyRound2 (q : ℚ) : ℚ := ((q * 100 + 1 / 2).floor : ℚ) / 100

structure SeqAnalysis where
  gc_content : ℚ
  codons : CodonDict
  deriving DecidableEq, Repr

/-- `DNAProcessor._analyze_sequence`.  The state argument is the instance's
`codon_frequencies` dictionary, updated in the same loop that builds the
local `codons` dictionary.  Dividing by `len(sequence)` raises
`ZeroDivisionError` when the sequence is empty. -/
def analyze_sequence (freqs : CodonDict) (s : List Char) :
    Except PyExc (SeqAnalysis × CodonDict) :=
  if s.length = 0 then .error .zeroDivisionError
  else
    let gc_content := pyRound2 ((gcCount s : ℚ) / (s.length : ℚ) * 100)
    let codons := countCodons s
    let freqs' := (codonList s).foldl bump freqs
    .ok ({ gc_content := gc_content, codons := codons }, freqs')

theorem dictGet_countCodons (s c : List Char) :
    dictGet (countCodons s) c = (chunks3 s).count c := by
  unfold countCodons
  rw [dictGet_foldl_bump, codonList_eq_chunks3]
  simp [dictGet]

/-- C5: the per-sequence codon table counts exactly the non-overlapping
triplets starting at index 0, discarding (not padding) a trailing 1- or
2-character remainder; `"ATCATCATC"` yields `{"ATC": 3}`, `"ATCATCA"`
yields `{"ATC": 2}`, and `"AT"` yields the empty table. -/
theorem codon_table_counts_triplets :
    (∀ s c : List Char, dictGet (countCodons s) c = (chunks3 s).count c)
    ∧ countCodons "ATCATCATC".data = [("ATC".data, 3)]
    ∧ countCodons "ATCATCA".data = [("ATC".data, 2)]
    ∧ countCodons "AT".data = [] :=
  ⟨dictGet_countCodons, by decide, by decide, by decide⟩

/-- Result of `_find_lcs`: value, 1-based participant indices, length. -/
structure LCSResult where
  value : List Char
  sequences : List Nat
  length : Nat
  deriving DecidableEq, Repr

/-- `DNAProcessor._longest_common_subsequence(seq1, seq2)`.

Modelled from the spec: the source delegates to the external `Levenshtein`
library (`matching_blocks(editops(seq1, seq2), ...)`, then slices the
largest block out of `seq1`, returning `""` when the largest block has
size 0).  Per the spec this computes the longest contiguous common
substring of the pair; ties between equally long matches are broken by the
alignment's first block, which the spec declares non-canonical, so this
model takes the candidate at the smallest start position in `seq1`. -/
def lcsPair (s1 s2 : List Char) : List Char :=
  let bestLenAt := fun (i : Nat) =>
    ((List.range (s1.length - i + 1)).filter
      (fun len => decide ((s1.drop i).take len <:+: s2))).foldl max 0
  let best := (List.range s1.length).foldl
    (fun (b : Nat × Nat) i =>
      let bl := bestLenAt i
      if bl > b.2 then (i, bl) else b) (0, 0)
  (s1.drop best.1).take best.2

/-- The pair indices visited by `itertools.combinations(range(n), 2)`. -/
def pairsList (n : Nat) : List (Nat × Nat) :=
  (List.range n).flatMap (fun i =>
    ((List.range n).filter (fun j => decide (i < j))).map (fun j => (i, j)))

/-- The `all_results` list built by `_find_lcs` (one entry per pair of
sequences whose pairwise LCS is non-empty; `participants` collects every
1-based index whose raw sequence contains the candidate substring). -/
def lcsCandidates (seqs : List (List Char)) : List LCSResult :=
  (pairsList seqs.length).filterMap (fun ij =>
    let lcs_value := lcsPair (seqs.getD ij.1 []) (seqs.getD ij.2 [])
    if lcs_value.isEmpty then none
    else some { value := lcs_value,
                sequences := ((List.range seqs.length).filter
                  (fun k => decide (lcs_value <:+: seqs.getD k []))).map (· + 1),
                length := lcs_value.length })

/-- The key `(x["length"], len(x["sequences"]))` used by `_find_lcs`'s
final `max`. -/
def lcsKey (r : LCSResult) : Nat × Nat := (r.length, r.sequences.length)

/-- Strict lexicographic comparison of `max` keys, as Python compares
tuples. -/
def lexGt (a b : Nat × Nat) : Bool :=
  decide (b.1 < a.1) || (decide (a.1 = b.1) && decide (b.2 < a.2))

/-- Python's `max` over a non-empty list: a later element replaces the
current best only when its key is strictly greater, so the first element
with the maximal key wins. -/
def pickMax : LCSResult → List LCSResult → LCSResult
  | best, [] => best
  | best, r :: rs => if lexGt (lcsKey r) (lcsKey best) then pickMax r rs else pickMax best rs

def emptyLCS : LCSResult := { value := [], sequences := [], length := 0 }

/-- `DNAProcessor._find_lcs` (DNAProcessor.py lines 89-129). -/
def find_lcs (seqs : List (List Char)) : LCSResult :=
  if seqs.length < 2 then emptyLCS
  else
    match lcsCandidates seqs with
    | [] => emptyLCS
    | r :: rs => pickMax r rs

/-- The loop of `transform_dna` over `dna_data.sequences`, threading the
instance's `codon_frequencies`. -/
def analyzeAll (freqs : CodonDict) : List (List Char) → Except PyExc (List SeqAnalysis × CodonDict)
  | [] => .ok ([], freqs)
  | s :: rest =>
    match analyze_sequence freqs s with
    | .error e => .error e
    | .ok (a, f') =>
      match analyzeAll f' rest with
      | .error e => .error e
      | .ok (as, f'') => .ok (a :: as, f'')

structure DNAResult where
  sequences : List SeqAnalysis
  most_common_codon : Option (List Char)
  lcs : LCSResult
  deriving DecidableEq, Repr

/-- `max(d, key=d.get)`: first key with the maximal value, since a later
key replaces the running best only when strictly greater. -/
def argmaxGo : List Char → Nat → CodonDict → List Char × Nat
  | bk, bv, [] => (bk, bv)
  | bk, bv, (k, v) :: rest => if bv < v then argmaxGo k v rest else argmaxGo bk bv rest

/-- `most_common_codon`: `None` for an empty accumulator, else
`max(codon_frequencies, key=codon_frequencies.get)`. -/
def dictArgmax : CodonDict → Option (List Char)
  | [] => none
  | (k, v) :: rest => some (argmaxGo k v rest).1

/-- `DNAProcessor.transform_dna`.  `freqs` is the instance state
`self.codon_frequencies` on entry; the returned dictionary is its state
after the call. -/
def transform_dna (freqs : CodonDict) (dna : List (List Char)) :
    Except PyExc (DNAResult × CodonDict) :=
  match analyzeAll freqs dna with
  | .error e => .error e
  | .ok (sequences_data, freqs') =>
    let lcs_data := find_lcs dna
    let most_common_codon := dictArgmax freqs'
    .ok ({ sequences := sequences_data,
           most_common_codon := most_common_codon,
           lcs := lcs_data }, freqs')

/-- Non-strict lexicographic order on `max` keys. -/
def lexLeP (a b : Nat × Nat) : Prop := a.1 < b.1 ∨ (a.1 = b.1 ∧ a.2 ≤ b.2)

theorem lexLeP_refl (a : Nat × Nat) : lexLeP a a := Or.inr ⟨rfl, Nat.le_refl _⟩

theorem lexLeP_trans {a b c : Nat × Nat} (h1 : lexLeP a b) (h2 : lexLeP b c) :
    lexLeP a c := by
  unfold lexLeP at h1 h2 ⊢
  omega

theorem lexGt_eq_true_iff (a b : Nat × Nat) :
    lexGt a b = true ↔ (b.1 < a.1 ∨ (a.1 = b.1 ∧ b.2 < a.2)) := by
  simp [lexGt, Bool.or_eq_true, Bool.and_eq_true, decide_eq_true_eq]

theorem lexLeP_of_lexGt_eq_false {a b : Nat × Nat} (h : lexGt a b = false) :
    lexLeP a b := by
  have : ¬(b.1 < a.1 ∨ (a.1 = b.1 ∧ b.2 < a.2)) := by
    rw [← lexGt_eq_true_iff]
    simp [h]
  unfold lexLeP
  omega

theorem lexLeP_of_lexGt_eq_true {a b : Nat × Nat} (h : lexGt a b = true) :
    lexLeP b a := by
  rw [lexGt_eq_true_iff] at h
  unfold lexLeP
  omega

theorem pickMax_le :
    (rs : List LCSResult) → (best : LCSResult) → (r : LCSResult) →
      (r = best ∨ r ∈ rs) → lexLeP (lcsKey r) (lcsKey (pickMax best rs))
  | [], best, r, h => by
    rcases h with h | h
    · subst h
      exact lexLeP_refl _
    · exact absurd h (List.not_mem_nil r)
  | x :: rs, best, r, h => by
    show lexLeP (lcsKey r) (lcsKey (if lexGt (lcsKey x) (lcsKey best) then pickMax x rs else pickMax best rs))
    by_cases hx : lexGt (lcsKey x) (lcsKey best) = true
    · rw [if_pos hx]
      rcases h with h | h
      · rw [h]
        exact lexLeP_trans (lexLeP_of_lexGt_eq_true hx) (pickMax_le rs x x (Or.inl rfl))
      · rcases List.mem_cons.mp h with h | h
        · rw [h]
          exact pickMax_le rs x x (Or.inl rfl)
        · exact pickMax_le rs x r (Or.inr h)
    · have hx' : lexGt (lcsKey x) (lcsKey best) = false := by
        cases hh : lexGt (lcsKey x) (lcsKey best)
        · rfl
        · exact absurd hh hx
      rw [if_neg (by simp [hx'])]
      rcases h with h | h
      · rw [h]
        exact pickMax_le rs best best (Or.inl rfl)
      · rcases List.mem_cons.mp h with h | h
        · rw [h]
          exact lexLeP_trans (lexLeP_of_lexGt_eq_false hx') (pickMax_le rs best best (Or.inl rfl))
        · exact pickMax_le rs best r (Or.inr h)

theorem lcsCandidates_nil_of_short {seqs : List (List Char)}
    (h : seqs.length < 2) : lcsCandidates seqs = [] := by
  match seqs, h with
  | [], _ => rfl
  | [s], _ => rfl

set_option maxRecDepth 10000 in
/-- C6: over `["ATCGCGATCG","GCTAGCTAGC","TTAATTAATT","CGCGCGCGCG"]` the
LCS is `{value := "CGCG", length := 4, sequences := [1, 4]}` (1-based), and
in general the selected result is lexicographically maximal among all
pairwise candidates under the key (length, number of containing
sequences): greatest length first, ties broken by the greatest count of
sequences containing the candidate substring. -/
theorem find_lcs_example_and_selection :
    find_lcs ["ATCGCGATCG".data, "GCTAGCTAGC".data, "TTAATTAATT".data, "CGCGCGCGCG".data]
      = { value := "CGCG".data, sequences := [1, 4], length := 4 }
    ∧ ∀ (seqs : List (List Char)) (r : LCSResult), r ∈ lcsCandidates seqs →
        lexLeP (lcsKey r) (lcsKey (find_lcs seqs)) := by
  constructor
  · decide
  · intro seqs r hr
    unfold find_lcs
    by_cases hlen : seqs.length < 2
    · rw [lcsCandidates_nil_of_short hlen] at hr
      exact absurd hr (List.not_mem_nil r)
    · rw [if_neg hlen]
      match hc : lcsCandidates seqs with
      | [] =>
        rw [hc] at hr
        exact absurd hr (List.not_mem_nil r)
      | c :: cs =>
        rw [hc] at hr
        rcases List.mem_cons.mp hr with h | h
        · exact pickMax_le cs c r (Or.inl h)
        · exact pickMax_le cs c r (Or.inr h)

set_option maxRecDepth 10000 in
/-- Witness for the selection property of C6 at a concrete candidate of the
four-sequence example. -/
theorem find_lcs_selection_witness :
    lexLeP
      (lcsKey { value := "GC".data, sequences := [1, 2, 4], length := 2 })
      (lcsKey (find_lcs ["ATCGCGATCG".data, "GCTAGCTAGC".data, "TTAATTAATT".data, "CGCGCGCGCG".data])) :=
  find_lcs_example_and_selection.2
    ["ATCGCGATCG".data, "GCTAGCTAGC".data, "TTAATTAATT".data, "CGCGCGCGCG".data]
    { value := "GC".data, sequences := [1, 2, 4], length := 2 }
    (by decide)

/-! ## The `codon_frequencies` accumulator (claim C9)

`DNAProcessor.__init__` sets `self.codon_frequencies = {}`; every
`transform_dna` call on the same instance keeps folding codons into it. -/

/-- The codons contributed by one `transform_dna` call, in loop order. -/
def batchCodons (b : List (List Char)) : List (List Char) :=
  b.flatMap codonList

/-- The codons contributed by a sequence of `transform_dna` calls. -/
def allCodons (bs : List (List (List Char))) : List (List Char) :=
  bs.flatMap batchCodons

/-- A sequence of `transform_dna` calls on one `DNAProcessor` instance,
threading `self.codon_frequencies` and discarding each call's return
value. -/
def chain (freqs : CodonDict) : List (List (List Char)) → Except PyExc CodonDict
  | [] => .ok freqs
  | b :: rest =>
    match transform_dna freqs b with
    | .error e => .error e
    | .ok (_, f') => chain f' rest

def dictKeys (d : CodonDict) : List (List Char) := d.map (·.1)

/-- Spec-side mirror: the distinct elements of a list in order of first
occurrence. -/
def firstSeen (acc : List (List Char)) : List (List Char) → List (List Char)
  | [] => acc
  | k :: rest => if k ∈ acc then firstSeen acc rest else firstSeen (acc ++ [k]) rest

theorem containsKey_eq_true_iff_mem (d : CodonDict) (k : List Char) :
    containsKey d k = true ↔ k ∈ dictKeys d := by
  induction d with
  | nil => simp [containsKey, dictKeys]
  | cons kv rest ih =>
    obtain ⟨k', v'⟩ := kv
    show (if k' = k then true else containsKey rest k) = true ↔ k ∈ k' :: dictKeys rest
    rw [List.mem_cons]
    by_cases hk : k' = k
    · simp [hk]
    · rw [if_neg hk]
      constructor
      · intro h
        exact Or.inr (ih.mp h)
      · intro h
        rcases h with h | h
        · exact absurd h.symm hk
        · exact ih.mpr h

theorem dictKeys_bump (d : CodonDict) (k : List Char) :
    dictKeys (bump d k)
      = if k ∈ dictKeys d then dictKeys d else dictKeys d ++ [k] := by
  by_cases hmem : containsKey d k = true
  · have hm : k ∈ dictKeys d := (containsKey_eq_true_iff_mem d k).mp hmem
    rw [if_pos hm]
    unfold bump
    rw [if_pos hmem]
    unfold dictKeys
    rw [List.map_map]
    apply List.map_congr_left
    intro kv _
    simp only [Function.comp_apply]
    by_cases h : kv.1 = k <;> simp [h]
  · have hmem' : containsKey d k = false := by
      cases h : containsKey d k
      · rfl
      · exact absurd h hmem
    have hm : ¬(k ∈ dictKeys d) := fun h => hmem ((containsKey_eq_true_iff_mem d k).mpr h)
    rw [if_neg hm]
    unfold bump
    rw [if_neg (by simp [hmem'])]
    unfold dictKeys
    rw [List.map_append]
    rfl

theorem dictKeys_foldl_bump :
    (l : List (List Char)) → (d : CodonDict) →
      dictKeys (l.foldl bump d) = firstSeen (dictKeys d) l
  | [], d => rfl
  | k :: l, d => by
    have hstep : firstSeen (dictKeys d) (k :: l)
        = if k ∈ dictKeys d then firstSeen (dictKeys d) l
          else firstSeen (dictKeys d ++ [k]) l := rfl
    rw [List.foldl_cons, dictKeys_foldl_bump l (bump d k), dictKeys_bump, hstep]
    by_cases hm : k ∈ dictKeys d
    · rw [if_pos hm, if_pos hm]
    · rw [if_neg hm, if_neg hm]

/-- `most_common_codon` is the first key of the accumulator attaining the
maximal accumulated count: every key before it counts strictly less, every
key after it counts at most as much.  Because keys sit in the dictionary
in first-seen order, this is exactly "maximum count, ties broken by
first-seen insertion order". -/
def ArgmaxFirst (d : CodonDict) : Prop :=
  match dictArgmax d with
  | none => d = []
  | some k =>
    ∃ pre v post, d = pre ++ (k, v) :: post
      ∧ (∀ x ∈ pre, x.2 < v) ∧ (∀ x ∈ post, x.2 ≤ v)

theorem argmaxGo_spec :
    (l : CodonDict) → (bk : List Char) → (bv : Nat) →
      (argmaxGo bk bv l = (bk, bv) ∧ ∀ x ∈ l, x.2 ≤ bv)
      ∨ (∃ pre post, l = pre ++ (argmaxGo bk bv l) :: post
          ∧ bv < (argmaxGo bk bv l).2
          ∧ (∀ x ∈ pre, x.2 < (argmaxGo bk bv l).2)
          ∧ (∀ x ∈ post, x.2 ≤ (argmaxGo bk bv l).2))
  | [], bk, bv => Or.inl ⟨rfl, by intro x hx; exact absurd hx (List.not_mem_nil x)⟩
  | (k, v) :: rest, bk, bv => by
    show _ ∨ (∃ pre post, (k, v) :: rest = pre ++ (argmaxGo bk bv ((k, v) :: rest)) :: post ∧ _)
    have hstep : argmaxGo bk bv ((k, v) :: rest)
        = if bv < v then argmaxGo k v rest else argmaxGo bk bv rest := rfl
    by_cases hv : bv < v
    · rw [hstep, if_pos hv]
      rcases argmaxGo_spec rest k v with ⟨heq, hall⟩ | ⟨pre, post, hl, hlt, hpre, hpost⟩
      · refine Or.inr ⟨[], rest, ?_, ?_, ?_, ?_⟩
        · rw [heq]
          rfl
        · rw [heq]
          exact hv
        · intro x hx
          exact absurd hx (List.not_mem_nil x)
        · intro x hx
          rw [heq]
          exact hall x hx
      · refine Or.inr ⟨(k, v) :: pre, post, ?_, ?_, ?_, ?_⟩
        · rw [List.cons_append, ← hl]
        · exact Nat.lt_trans hv hlt
        · intro x hx
          rcases List.mem_cons.mp hx with h | h
          · rw [h]
            exact hlt
          · exact hpre x h
        · exact hpost
    · rw [hstep, if_neg hv]
      rcases argmaxGo_spec rest bk bv with ⟨heq, hall⟩ | ⟨pre, post, hl, hlt, hpre, hpost⟩
      · refine Or.inl ⟨heq, ?_⟩
        intro x hx
        rcases List.mem_cons.mp hx with h | h
        · rw [h]
          exact Nat.le_of_not_lt hv
        · exact hall x h
      · refine Or.inr ⟨(k, v) :: pre, post, ?_, ?_, ?_, ?_⟩
        · rw [List.cons_append, ← hl]
        · exact hlt
        · intro x hx
          rcases List.mem_cons.mp hx with h | h
          · rw [h]
            exact Nat.lt_of_le_of_lt (Nat.le_of_not_lt hv) hlt
          · exact hpre x h
        · exact hpost

theorem argmaxFirst_holds : (d : CodonDict) → ArgmaxFirst d
  | [] => rfl
  | (k, v) :: rest => by
    show ∃ pre v' post, (k, v) :: rest = pre ++ ((argmaxGo k v rest).1, v') :: post
      ∧ (∀ x ∈ pre, x.2 < v') ∧ (∀ x ∈ post, x.2 ≤ v')
    rcases argmaxGo_spec rest k v with ⟨heq, hall⟩ | ⟨pre, post, hl, hlt, hpre, hpost⟩
    · refine ⟨[], v, rest, ?_, ?_, ?_⟩
      · rw [heq]
        rfl
      · intro x hx
        exact absurd hx (List.not_mem_nil x)
      · exact hall
    · refine ⟨(k, v) :: pre, (argmaxGo k v rest).2, post, ?_, ?_, ?_⟩
      · rw [List.cons_append, ← hl]
      · intro x hx
        rcases List.mem_cons.mp hx with h | h
        · rw [h]
          exact hlt
        · exact hpre x h
      · exact hpost

theorem analyzeAll_state :
    (seqs : List (List Char)) → (f : CodonDict) → (as : List SeqAnalysis) →
      (f' : CodonDict) → analyzeAll f seqs = .ok (as, f') →
      f' = (seqs.flatMap codonList).foldl bump f
  | [], f, as, f', h => by
    simp only [analyzeAll] at h
    injection h with h
    injection h with _ h2
    simp [← h2]
  | s :: rest, f, as, f', h => by
    by_cases hs : s.length = 0
    · simp [analyzeAll, analyze_sequence, hs] at h
    · simp only [analyzeAll, analyze_sequence, hs, if_false] at h
      cases hrest : analyzeAll ((codonList s).foldl bump f) rest with
      | error e =>
        rw [hrest] at h
        simp at h
      | ok p =>
        obtain ⟨as'', f''⟩ := p
        rw [hrest] at h
        simp only [Except.ok.injEq, Prod.mk.injEq] at h
        obtain ⟨_, h2⟩ := h
        have := analyzeAll_state rest ((codonList s).foldl bump f) as'' f'' hrest
        rw [← h2, this]
        rw [List.flatMap_cons, List.foldl_append]

theorem transform_dna_ok {f : CodonDict} {b : List (List Char)}
    {r : DNAResult} {f' : CodonDict} (h : transform_dna f b = .ok (r, f')) :
    (∃ as, analyzeAll f b = .ok (as, f')) ∧ r.most_common_codon = dictArgmax f' := by
  unfold transform_dna at h
  cases ha : analyzeAll f b with
  | error e =>
    rw [ha] at h
    exact absurd h (by simp)
  | ok p =>
    obtain ⟨as, f''⟩ := p
    rw [ha] at h
    simp only [Except.ok.injEq, Prod.mk.injEq] at h
    obtain ⟨h1, h2⟩ := h
    constructor
    · exact ⟨as, by rw [h2]⟩
    · rw [← h1]
      show dictArgmax f'' = dictArgmax f'
      rw [h2]

theorem chain_state :
    (bs : List (List (List Char))) → (f f' : CodonDict) →
      chain f bs = .ok f' → f' = (allCodons bs).foldl bump f
  | [], f, f', h => by
    simp only [chain] at h
    injection h with h
    simp [allCodons, ← h]
  | b :: rest, f, f', h => by
    simp only [chain] at h
    cases ht : transform_dna f b with
    | error e =>
      rw [ht] at h
      exact absurd h (by simp)
    | ok p =>
      obtain ⟨r, f1⟩ := p
      rw [ht] at h
      obtain ⟨⟨as, hall⟩, _⟩ := transform_dna_ok ht
      have h1 : f1 = (batchCodons b).foldl bump f := analyzeAll_state b f as f1 hall
      have h2 := chain_state rest f1 f' h
      rw [h2, h1]
      have hsplit : allCodons (b :: rest) = batchCodons b ++ allCodons rest := by
        unfold allCodons
        rw [List.flatMap_cons]
      rw [hsplit, List.foldl_append]

/-- C9: across any sequence of `transform_dna` calls on one `DNAProcessor`
instance (constructed with an empty accumulator), the `codon_frequencies`
state equals the pointwise sum of the codon counts of all sequences
processed since construction (stated as the occurrence count in the
concatenated codon stream `allCodons`), its keys sit in first-seen
insertion order, and the `most_common_codon` returned by the last call is
computed from that accumulated state as the first key attaining the
maximal count (`ArgmaxFirst`) — so the returned value depends on all
earlier calls to the same instance, not only on the last call's input. -/
theorem codon_accumulator_and_most_common :
    ∀ (bs : List (List (List Char))) (b : List (List Char))
      (f f' : CodonDict) (r : DNAResult),
      chain [] bs = .ok f →
      transform_dna f b = .ok (r, f') →
      (∀ c, dictGet f' c = (allCodons (bs ++ [b])).count c)
      ∧ dictKeys f' = firstSeen [] (allCodons (bs ++ [b]))
      ∧ r.most_common_codon = dictArgmax f'
      ∧ ArgmaxFirst f' := by
  intro bs b f f' r hchain htrans
  obtain ⟨⟨as, hall⟩, hmc⟩ := transform_dna_ok htrans
  have hf : f = (allCodons bs).foldl bump [] := chain_state bs [] f hchain
  have hf' : f' = (batchCodons b).foldl bump f := analyzeAll_state b f as f' hall
  have hsplit : allCodons (bs ++ [b]) = allCodons bs ++ batchCodons b := by
    unfold allCodons
    rw [List.flatMap_append]
    simp
  have hff : f' = (allCodons (bs ++ [b])).foldl bump [] := by
    rw [hsplit, List.foldl_append, ← hf, ← hf']
  refine ⟨?_, ?_, hmc, ?_⟩
  · intro c
    rw [hff, dictGet_foldl_bump]
    simp [dictGet]
  · rw [hff, dictKeys_foldl_bump]
    rfl
  · exact argmaxFirst_holds f'

/-- Extracts the payload of a successful `transform_dna` call. -/
def okOrD : Except PyExc (DNAResult × CodonDict) → DNAResult × CodonDict
  | .ok p => p
  | .error _ => ({ sequences := [], most_common_codon := none, lcs := emptyLCS }, [])

/-- Witness for C9: a fresh instance processes `["ATCATC"]` and then
`["ATCGCG"]`; the accumulator afterwards counts `ATC` three times and the
second call reports `most_common_codon = "ATC"`. -/
theorem codon_accumulator_witness :
    dictGet (okOrD (transform_dna [("ATC".data, 2)] ["ATCGCG".data])).2 "ATC".data = 3
    ∧ (okOrD (transform_dna [("ATC".data, 2)] ["ATCGCG".data])).1.most_common_codon
        = some "ATC".data := by
  have h := codon_accumulator_and_most_common [["ATCATC".data]] ["ATCGCG".data]
    [("ATC".data, 2)]
    (okOrD (transform_dna [("ATC".data, 2)] ["ATCGCG".data])).2
    (okOrD (transform_dna [("ATC".data, 2)] ["ATCGCG".data])).1
    rfl
    rfl
  exact ⟨(h.1 "ATC".data).trans (by decide), h.2.2.1.trans (by decide)⟩

/-! ## DataExtractor (`src/Pipeline/DataExtractor.py`)

`_extract_dna` reads the DNA file and appends `line.strip()` for every
line whose stripped form is non-blank. -/

/-- The whitespace stripped by Python's `str.strip()` (the ASCII cases;
the DNA files contain only ASCII). -/
def pyIsSpace (c : Char) : Bool :=
  c = ' ' ∨ c = '\t' ∨ c = '\n' ∨ c = '\r' ∨ c = '\x0b' ∨ c = '\x0c'

/-- Python `line.strip()`. -/
def pyStrip (cs : List Char) : List Char :=
  ((cs.dropWhile pyIsSpace).reverse.dropWhile pyIsSpace).reverse

/-- Split a character list at a separator (used to model iterating
`readlines()`: the per-line trailing newline is consumed by `strip`). -/
def splitChar (sep : Char) : List Char → List (List Char)
  | [] => [[]]
  | c :: rest =>
    match splitChar sep rest with
    | [] => [[]]
    | g :: gs => if c = sep then [] :: g :: gs else (c :: g) :: gs

/-- `DataExtractor._extract_dna`: strip every line, keep the non-blank
ones, in file order. -/
def extract_dna (contents : String) : List (List Char) :=
  ((splitChar '\n' contents.data).map pyStrip).filter (fun s => decide (s ≠ []))

theorem analyzeAll_isOk :
    (seqs : List (List Char)) → (f : CodonDict) → (∀ s ∈ seqs, s ≠ []) →
      ∃ as f', analyzeAll f seqs = .ok (as, f')
  | [], f, _ => ⟨[], f, rfl⟩
  | s :: rest, f, h => by
    have hs : s.length ≠ 0 := by
      intro hl
      exact h s (List.mem_cons_self s rest) (List.length_eq_zero.mp hl)
    have hrest := analyzeAll_isOk rest ((codonList s).foldl bump f)
      (fun x hx => h x (List.mem_cons_of_mem s hx))
    obtain ⟨as, f', hr⟩ := hrest
    refine ⟨{ gc_content := pyRound2 ((gcCount s : ℚ) / (s.length : ℚ) * 100),
              codons := countCodons s } :: as, f', ?_⟩
    simp only [analyzeAll, analyze_sequence, hs, if_false]
    rw [hr]

/-- C10: every sequence produced by `_extract_dna` is non-empty (blank
lines are skipped and surrounding whitespace stripped), so the
GC-content division by `len(sequence)` never divides by zero and
`transform_dna` on extracted data never raises `ZeroDivisionError`
(it returns a successful result). -/
theorem extract_dna_nonempty_no_zero_division :
    ∀ (freqs : CodonDict) (contents : String),
      (∀ s ∈ extract_dna contents, s ≠ [])
      ∧ (transform_dna freqs (extract_dna contents)).isOk = true := by
  intro freqs contents
  have hne : ∀ s ∈ extract_dna contents, s ≠ [] := by
    intro s hs
    unfold extract_dna at hs
    have := (List.mem_filter.mp hs).2
    exact of_decide_eq_true this
  refine ⟨hne, ?_⟩
  obtain ⟨as, f', ha⟩ := analyzeAll_isOk (extract_dna contents) freqs hne
  unfold transform_dna
  rw [ha]
  rfl

/-- Witness for C10 on a concrete DNA file containing blank and
whitespace-only lines. -/
theorem extract_dna_nonempty_witness :
    "ATC".data ≠ []
    ∧ (transform_dna [] (extract_dna "ATC\n\n  \nGG")).isOk = true :=
  ⟨(extract_dna_nonempty_no_zero_division [] "ATC\n\n  \nGG").1 "ATC".data (by decide),
   (extract_dna_nonempty_no_zero_division [] "ATC\n\n  \nGG").2⟩

/-! ## Metadata trees

A JSON metadata document, as loaded by `json.load`: an insertion-ordered
mapping from string keys to strings, numbers, booleans, null, arrays or
nested mappings.  `MEntries` is the entry list of one mapping. -/

mutual
inductive MVal where
  | str (s : String)
  | intVal (n : Int)
  | boolVal (b : Bool)
  | nullVal
  | listVal (xs : MList)
  | dict (entries : MEntries)
  deriving DecidableEq
inductive MList where
  | nil
  | cons (v : MVal) (rest : MList)
  deriving DecidableEq
inductive MEntries where
  | nil
  | cons (key : String) (val : MVal) (rest : MEntries)
  deriving DecidableEq
end

/-- Python `key.startswith("_")`. -/
def privateKey (k : String) : Bool :=
  match k.data with
  | '_' :: _ => true
  | _ => false

/-! ## MetaDataProcessor (`src/Pipeline/Transform/MetaDataProcessor.py`)

`remove_private_keys` rebuilds the dictionary, skipping every key that
starts with `_`, recursing into nested dictionaries, and copying every
other value unchanged. -/

def remove_private_keys : MEntries → MEntries
  | .nil => .nil
  | .cons k v rest =>
    if privateKey k then remove_private_keys rest
    else
      match v with
      | .dict sub => .cons k (.dict (remove_private_keys sub)) (remove_private_keys rest)
      | _ => .cons k v (remove_private_keys rest)

/-- All keys of the entry list are underscore-prefixed. -/
def allPrivate : MEntries → Bool
  | .nil => true
  | .cons k _ rest => privateKey k && allPrivate rest

theorem remove_private_keys_of_allPrivate :
    (t : MEntries) → allPrivate t = true → remove_private_keys t = .nil
  | .nil, _ => rfl
  | .cons k v rest, h => by
    have hp : privateKey k = true := by
      have := h
      unfold allPrivate at this
      exact (Bool.and_eq_true _ _).mp this |>.1
    have hrest : allPrivate rest = true := by
      have := h
      unfold allPrivate at this
      exact (Bool.and_eq_true _ _).mp this |>.2
    unfold remove_private_keys
    rw [if_pos hp]
    exact remove_private_keys_of_allPrivate rest hrest

/-- The effect of `remove_private_keys` on one retained value: nested
dictionaries are cleaned recursively, every other value is copied. -/
def rpVal : MVal → MVal
  | .dict sub => .dict (remove_private_keys sub)
  | v => v

theorem remove_private_keys_cons_private {k : String} (v : MVal) (rest : MEntries)
    (h : privateKey k = true) :
    remove_private_keys (.cons k v rest) = remove_private_keys rest := by
  cases v with
  | dict sub =>
    show (if privateKey k then remove_private_keys rest
          else .cons k (.dict (remove_private_keys sub)) (remove_private_keys rest)) = remove_private_keys rest
    rw [if_pos h]
  | str s =>
    show (if privateKey k then remove_private_keys rest
          else .cons k (.str s) (remove_private_keys rest)) = remove_private_keys rest
    rw [if_pos h]
  | intVal n =>
    show (if privateKey k then remove_private_keys rest
          else .cons k (.intVal n) (remove_private_keys rest)) = remove_private_keys rest
    rw [if_pos h]
  | boolVal b =>
    show (if privateKey k then remove_private_keys rest
          else .cons k (.boolVal b) (remove_private_keys rest)) = remove_private_keys rest
    rw [if_pos h]
  | nullVal =>
    show (if privateKey k then remove_private_keys rest
          else .cons k (.nullVal) (remove_private_keys rest)) = remove_private_keys rest
    rw [if_pos h]
  | listVal xs =>
    show (if privateKey k then remove_private_keys rest
          else .cons k (.listVal xs) (remove_private_keys rest)) = remove_private_keys rest
    rw [if_pos h]

theorem remove_private_keys_cons_not_private {k : String} (v : MVal) (rest : MEntries)
    (h : privateKey k = false) :
    remove_private_keys (.cons k v rest) = .cons k (rpVal v) (remove_private_keys rest) := by
  cases v with
  | dict sub =>
    show (if privateKey k then remove_private_keys rest
          else .cons k (.dict (remove_private_keys sub)) (remove_private_keys rest)) = _
    rw [if_neg (by simp [h])]
    rfl
  | str s =>
    show (if privateKey k then remove_private_keys rest
          else .cons k (.str s) (remove_private_keys rest)) = _
    rw [if_neg (by simp [h])]
    rfl
  | intVal n =>
    show (if privateKey k then remove_private_keys rest
          else .cons k (.intVal n) (remove_private_keys rest)) = _
    rw [if_neg (by simp [h])]
    rfl
  | boolVal b =>
    show (if privateKey k then remove_private_keys rest
          else .cons k (.boolVal b) (remove_private_keys rest)) = _
    rw [if_neg (by simp [h])]
    rfl
  | nullVal =>
    show (if privateKey k then remove_private_keys rest
          else .cons k (.nullVal) (remove_private_keys rest)) = _
    rw [if_neg (by simp [h])]
    rfl
  | listVal xs =>
    show (if privateKey k then remove_private_keys rest
          else .cons k (.listVal xs) (remove_private_keys rest)) = _
    rw [if_neg (by simp [h])]
    rfl

theorem remove_private_keys_idem :
    (t : MEntries) → remove_private_keys (remove_private_keys t) = remove_private_keys t
  | .nil => rfl
  | .cons k v rest => by
    by_cases h : privateKey k = true
    · rw [remove_private_keys_cons_private v rest h]
      exact remove_private_keys_idem rest
    · have h' : privateKey k = false := by
        cases hh : privateKey k
        · rfl
        · exact absurd hh h
      rw [remove_private_keys_cons_not_private v rest h']
      rw [remove_private_keys_cons_not_private (rpVal v) (remove_private_keys rest) h']
      rw [remove_private_keys_idem rest]
      have hv : rpVal (rpVal v) = rpVal v := by
        match v with
        | .dict sub =>
          show MVal.dict (remove_private_keys (remove_private_keys sub)) = MVal.dict (remove_private_keys sub)
          rw [remove_private_keys_idem sub]
        | .str _ => rfl
        | .intVal _ => rfl
        | .boolVal _ => rfl
        | .nullVal => rfl
        | .listVal _ => rfl
      rw [hv]

/-- First entry with the given key (Python dict lookup; keys are unique in
dictionaries produced by `json.load`). -/
def lookupEntry : MEntries → String → Option MVal
  | .nil, _ => none
  | .cons k v rest, key => if k = key then some v else lookupEntry rest key

/-- Follow a key path down nested dictionaries; `[]` denotes the root. -/
def lookupPath : MEntries → List String → Option MVal
  | t, [] => some (.dict t)
  | t, k :: ks =>
    match lookupEntry t k with
    | some (.dict sub) => lookupPath sub ks
    | some v => match ks with
      | [] => some v
      | _ => none
    | none => none

theorem lookupEntry_remove_private_keys :
    (t : MEntries) → (k : String) → privateKey k = false →
      lookupEntry (remove_private_keys t) k = (lookupEntry t k).map rpVal
  | .nil, k, _ => rfl
  | .cons k' v rest, k, h => by
    by_cases hp : privateKey k' = true
    · rw [remove_private_keys_cons_private v rest hp]
      have hne : ¬(k' = k) := by
        intro he
        rw [he, h] at hp
        exact Bool.noConfusion hp
      rw [lookupEntry_remove_private_keys rest k h]
      show _ = (if k' = k then some v else lookupEntry rest k).map rpVal
      rw [if_neg hne]
    · have hp' : privateKey k' = false := by
        cases hh : privateKey k'
        · rfl
        · exact absurd hh hp
      rw [remove_private_keys_cons_not_private v rest hp']
      show (if k' = k then some (rpVal v) else lookupEntry (remove_private_keys rest) k)
        = (if k' = k then some v else lookupEntry rest k).map rpVal
      by_cases hk : k' = k
      · rw [if_pos hk, if_pos hk]
        rfl
      · rw [if_neg hk, if_neg hk]
        exact lookupEntry_remove_private_keys rest k h

theorem lookupPath_remove_private_keys :
    (p : List String) → (t sub : MEntries) →
      (∀ k ∈ p, privateKey k = false) →
      lookupPath t p = some (.dict sub) →
      lookupPath (remove_private_keys t) p = some (.dict (remove_private_keys sub))
  | [], t, sub, _, h => by
    simp only [lookupPath, Option.some.injEq, MVal.dict.injEq] at h
    rw [h]
    rfl
  | k :: ks, t, sub, hall, h => by
    have hk : privateKey k = false := hall k (List.mem_cons_self k ks)
    have hrest : ∀ k' ∈ ks, privateKey k' = false :=
      fun k' hk' => hall k' (List.mem_cons_of_mem k hk')
    have hlook := lookupEntry_remove_private_keys t k hk
    cases he : lookupEntry t k with
    | none =>
      simp only [lookupPath] at h
      rw [he] at h
      exact absurd h (by simp)
    | some v =>
      simp only [lookupPath] at h
      rw [he] at h
      simp only [lookupPath]
      rw [hlook, he]
      cases v with
      | dict sub' =>
        show lookupPath (remove_private_keys sub') ks = some (.dict (remove_private_keys sub))
        exact lookupPath_remove_private_keys ks sub' sub hrest h
      | str s =>
        cases ks with
        | nil => simp at h
        | cons a b => simp at h
      | intVal n =>
        cases ks with
        | nil => simp at h
        | cons a b => simp at h
      | boolVal b =>
        cases ks with
        | nil => simp at h
        | cons a c => simp at h
      | nullVal =>
        cases ks with
        | nil => simp at h
        | cons a b => simp at h
      | listVal xs =>
        cases ks with
        | nil => simp at h
        | cons a b => simp at h

/-- C8 counterexample: on `{"_a": {"_b": 1}}` the nested dictionary
`{"_b": 1}` — all of whose keys are underscore-prefixed — is not preserved
as `{}` in the output: the whole entry is removed because its own key
`"_a"` is private, and the sanitized tree is `{}` with no entry at all. -/
theorem sanitize_drops_all_private_subtree_under_private_key :
    allPrivate (.cons "_b" (.intVal 1) .nil) = true
    ∧ remove_private_keys (.cons "_a" (.dict (.cons "_b" (.intVal 1) .nil)) .nil) = .nil
    ∧ lookupPath (remove_private_keys (.cons "_a" (.dict (.cons "_b" (.intVal 1) .nil)) .nil)) ["_a"]
        = none :=
  ⟨rfl, rfl, rfl⟩

/-- C8 (amended): `remove_private_keys` is a pure function of its input
(embedded here as a function; the Python code builds a fresh dict and
never mutates its argument) and it is idempotent; moreover every nested
dictionary that is *retained* — reachable from the root along
non-underscore-prefixed keys — is preserved in place, its value being the
sanitized subtree; in particular a retained subtree all of whose keys are
underscore-prefixed becomes the empty dictionary `{}` rather than being
omitted. -/
theorem sanitize_idempotent_and_preserves_retained_subtrees :
    (∀ t : MEntries, remove_private_keys (remove_private_keys t) = remove_private_keys t)
    ∧ (∀ (t : MEntries) (p : List String) (sub : MEntries),
        (∀ k ∈ p, privateKey k = false) →
        lookupPath t p = some (.dict sub) →
        lookupPath (remove_private_keys t) p = some (.dict (remove_private_keys sub)))
    ∧ (∀ sub : MEntries, allPrivate sub = true → remove_private_keys sub = .nil) :=
  ⟨remove_private_keys_idem,
   fun t p sub hall h => lookupPath_remove_private_keys p t sub hall h,
   remove_private_keys_of_allPrivate⟩

/-- Witness for amended C8: in `{"a": {"_x": "s"}}` the subtree under the
retained key `"a"` loses its only (private) key and survives as `{}`. -/
theorem sanitize_preserves_retained_empty_witness :
    lookupPath
      (remove_private_keys (.cons "a" (.dict (.cons "_x" (.str "s") .nil)) .nil)) ["a"]
      = some (.dict .nil) := by
  have h := sanitize_idempotent_and_preserves_retained_subtrees.2.1
    (.cons "a" (.dict (.cons "_x" (.str "s") .nil)) .nil) ["a"]
    (.cons "_x" (.str "s") .nil)
    (by
      intro k hk
      simp only [List.mem_singleton] at hk
      rw [hk]
      rfl)
    rfl
  have h2 := sanitize_idempotent_and_preserves_retained_subtrees.2.2
    (.cons "_x" (.str "s") .nil) rfl
  rw [h2] at h
  exact h

/-! ## Date parsing (`datetime.strptime` for the five formats of
`Constants.VALID_DATE_FORMATS`)

`_is_date_string` / `_parse_date_string` try, in order:
`%Y-%m-%d`, `%d/%m/%Y`, `%m/%d/%Y`, `%Y-%m-%d %H:%M:%S`, `%d-%m-%Y`.
CPython's `_strptime` compiles each directive to a digit-group regex
(`%Y` exactly four digits; `%m` one digit `1-9` or two digits `01-12`;
`%d` one digit `1-9` or two digits `01-31`; `%H` one or two digits up to
`23`; `%M`/`%S` one or two digits up to `59`), requires the whole string
to match, and then `datetime(...)` rejects a day that does not exist in
the month (and the `6[01]` leap-second forms of `%S`, which `datetime`
refuses), so a format succeeds exactly when every group fits its range
and the calendar date is real. -/

structure PyDate where
  year : Nat
  month : Nat
  day : Nat
  hour : Nat
  minute : Nat
  second : Nat
  deriving DecidableEq, Repr

def pyDigit (c : Char) : Bool := '0' ≤ c && c ≤ '9'

def digitsVal (cs : List Char) : Nat := cs.foldl (fun a c => a * 10 + (c.toNat - 48)) 0

def takeDigits (cs : List Char) : List Char × List Char :=
  (cs.takeWhile pyDigit, cs.dropWhile pyDigit)

/-- `%Y`: exactly four digits. -/
def fieldY (g : List Char) : Option Nat :=
  if g.length = 4 then some (digitsVal g) else none

/-- `%m` / `%d`: one digit `1-9`, or two digits from `01` up to `hi`. -/
def fieldMD (g : List Char) (hi : Nat) : Option Nat :=
  if g.length = 1 then (if 1 ≤ digitsVal g then some (digitsVal g) else none)
  else if g.length = 2 then
    (if 1 ≤ digitsVal g ∧ digitsVal g ≤ hi then some (digitsVal g) else none)
  else none

/-- `%H` / `%M` / `%S`: one digit, or two digits up to `hi`. -/
def fieldHMS (g : List Char) (hi : Nat) : Option Nat :=
  if g.length = 1 then some (digitsVal g)
  else if g.length = 2 then (if digitsVal g ≤ hi then some (digitsVal g) else none)
  else none

/-- Consume one literal character of the format. -/
def lit (c : Char) : List Char → Option (List Char)
  | x :: rest => if x = c then some rest else none
  | [] => none

def isLeap (y : Nat) : Bool := y % 4 = 0 && (y % 100 ≠ 0 || y % 400 = 0)

def daysInMonth (y m : Nat) : Nat :=
  if m = 2 then (if isLeap y then 29 else 28)
  else if m = 4 ∨ m = 6 ∨ m = 9 ∨ m = 11 then 30 else 31

/-- `datetime(year, month, day, ...)`: year at least 1 and a day that
exists in the month. -/
def mkDate (y m d hh mm ss : Nat) : Option PyDate :=
  if y = 0 then none
  else if d ≤ daysInMonth y m then some ⟨y, m, d, hh, mm, ss⟩ else none

/-- `%Y-%m-%d`. -/
def parseYMD (cs : List Char) : Option PyDate := do
  let (g1, r1) := takeDigits cs
  let y ← fieldY g1
  let r2 ← lit '-' r1
  let (g2, r3) := takeDigits r2
  let m ← fieldMD g2 12
  let r4 ← lit '-' r3
  let (g3, r5) := takeDigits r4
  let d ← fieldMD g3 31
  if r5 = [] then mkDate y m d 0 0 0 else none

/-- `%d/%m/%Y`. -/
def parseDMYslash (cs : List Char) : Option PyDate := do
  let (g1, r1) := takeDigits cs
  let d ← fieldMD g1 31
  let r2 ← lit '/' r1
  let (g2, r3) := takeDigits r2
  let m ← fieldMD g2 12
  let r4 ← lit '/' r3
  let (g3, r5) := takeDigits r4
  let y ← fieldY g3
  if r5 = [] then mkDate y m d 0 0 0 else none

/-- `%m/%d/%Y`. -/
def parseMDYslash (cs : List Char) : Option PyDate := do
  let (g1, r1) := takeDigits cs
  let m ← fieldMD g1 12
  let r2 ← lit '/' r1
  let (g2, r3) := takeDigits r2
  let d ← fieldMD g2 31
  let r4 ← lit '/' r3
  let (g3, r5) := takeDigits r4
  let y ← fieldY g3
  if r5 = [] then mkDate y m d 0 0 0 else none

/-- `%Y-%m-%d %H:%M:%S`. -/
def parseYMDHMS (cs : List Char) : Option PyDate := do
  let (g1, r1) := takeDigits cs
  let y ← fieldY g1
  let r2 ← lit '-' r1
  let (g2, r3) := takeDigits r2
  let m ← fieldMD g2 12
  let r4 ← lit '-' r3
  let (g3, r5) := takeDigits r4
  let d ← fieldMD g3 31
  let r6 ← lit ' ' r5
  let (g4, r7) := takeDigits r6
  let hh ← fieldHMS g4 23
  let r8 ← lit ':' r7
  let (g5, r9) := takeDigits r8
  let mm ← fieldHMS g5 59
  let r10 ← lit ':' r9
  let (g6, r11) := takeDigits r10
  let ss ← fieldHMS g6 59
  if r11 = [] then mkDate y m d hh mm ss else none

/-- `%d-%m-%Y`. -/
def parseDMYdash (cs : List Char) : Option PyDate := do
  let (g1, r1) := takeDigits cs
  let d ← fieldMD g1 31
  let r2 ← lit '-' r1
  let (g2, r3) := takeDigits r2
  let m ← fieldMD g2 12
  let r4 ← lit '-' r3
  let (g3, r5) := takeDigits r4
  let y ← fieldY g3
  if r5 = [] then mkDate y m d 0 0 0 else none

/-- `MetaDataValidator._parse_date_string`: first successful format wins. -/
def parse_date_string (s : String) : Option PyDate :=
  match parseYMD s.data with
  | some d => some d
  | none =>
    match parseDMYslash s.data with
    | some d => some d
    | none =>
      match parseMDYslash s.data with
      | some d => some d
      | none =>
        match parseYMDHMS s.data with
        | some d => some d
        | none => parseDMYdash s.data

/-- `MetaDataValidator._is_date_string`: the source loops over the same
format list in the same order as `_parse_date_string`, so it succeeds
exactly when the parse does. -/
def is_date_string (s : String) : Bool := (parse_date_string s).isSome

/-! ## MetaDataValidator (`src/Pipeline/MetaDataValidator.py`) -/

def MIN_AGE : Nat := 40
def MAX_VALUE_LEN : Nat := 64
def YEAR_RANGE_LOWER : Nat := 2014
def YEAR_RANGE_UPPER : Nat := 2024

/-- `_calculate_age`: `today.year - birth.year - ((today.month, today.day)
< (birth.month, birth.day))`, over `Int` since the result can be
negative. -/
def calculate_age (today birth_date : PyDate) : Int :=
  (today.year : Int) - (birth_date.year : Int)
    - (if today.month < birth_date.month
         ∨ (today.month = birth_date.month ∧ today.day < birth_date.day)
       then 1 else 0)

/-- `_validate_birth_date_value`: a string parsing under some format whose
computed age is at least `MIN_AGE`; any non-string value fails. -/
def validate_birth_date_value (today : PyDate) : MVal → Bool
  | .str s =>
    if is_date_string s then
      match parse_date_string s with
      | some birth_date => decide (calculate_age today birth_date ≥ (MIN_AGE : Int))
      | none => false
    else false
  | _ => false

/-- `_validate_string_value`: a string that parses as a date must have
its year in `[YEAR_RANGE_LOWER, YEAR_RANGE_UPPER]`; every string must
have length at most `MAX_VALUE_LEN`. -/
def validate_string_value (s : String) : Bool :=
  if is_date_string s then
    match parse_date_string s with
    | some date =>
      if ¬(YEAR_RANGE_LOWER ≤ date.year ∧ date.year ≤ YEAR_RANGE_UPPER) then false
      else decide (s.length ≤ MAX_VALUE_LEN)
    | none => false
  else decide (s.length ≤ MAX_VALUE_LEN)

/-- `MetaDataValidator.validate_metadata`: recursive descent with an
accumulator that short-circuits (`return False`) at the first failing
entry; nested dictionaries recurse, `date_of_birth` values get the age
check, other strings the string check, and other values pass. -/
def validate_metadata (today : PyDate) : MEntries → Bool
  | .nil => true
  | .cons k v rest =>
    let ok := match v with
      | .dict sub => validate_metadata today sub
      | _ =>
        if k = "date_of_birth" then validate_birth_date_value today v
        else
          match v with
          | .str s => validate_string_value s
          | _ => true
    if ok then validate_metadata today rest else false

/-! ## Claim C7: the age rule and the age-39 flip -/

mutual
/-- Spec-side mirror of one entry's rule: nested dictionaries must be
valid throughout, a `date_of_birth` value must parse with age at least
`MIN_AGE`, any other string must satisfy the string rules, and any other
value passes. -/
def entryOk (today : PyDate) : String → MVal → Bool
  | _, .dict sub => allOk today sub
  | k, .str s =>
    if k = "date_of_birth" then validate_birth_date_value today (.str s)
    else validate_string_value s
  | k, .intVal n =>
    if k = "date_of_birth" then validate_birth_date_value today (.intVal n) else true
  | k, .boolVal b =>
    if k = "date_of_birth" then validate_birth_date_value today (.boolVal b) else true
  | k, .nullVal =>
    if k = "date_of_birth" then validate_birth_date_value today .nullVal else true
  | k, .listVal xs =>
    if k = "date_of_birth" then validate_birth_date_value today (.listVal xs) else true
/-- Spec-side mirror of the whole-tree rule: the conjunction of
`entryOk` over every entry. -/
def allOk (today : PyDate) : MEntries → Bool
  | .nil => true
  | .cons k v rest => entryOk today k v && allOk today rest
end

/-- The short-circuiting accumulator of `validate_metadata` computes
exactly the conjunction of all per-entry rules. -/
theorem validate_eq_allOk (today : PyDate) :
    (t : MEntries) → validate_metadata today t = allOk today t
  | .nil => rfl
  | .cons k v rest => by
    have hrest := validate_eq_allOk today rest
    cases v with
    | dict sub =>
      show (if validate_metadata today sub then validate_metadata today rest else false)
        = (allOk today sub && allOk today rest)
      rw [validate_eq_allOk today sub, hrest]
      cases allOk today sub <;> simp
    | str s =>
      show (if (if k = "date_of_birth" then validate_birth_date_value today (.str s)
                else validate_string_value s)
            then validate_metadata today rest else false)
        = ((if k = "date_of_birth" then validate_birth_date_value today (.str s)
            else validate_string_value s) && allOk today rest)
      rw [hrest]
      cases (if k = "date_of_birth" then validate_birth_date_value today (.str s)
             else validate_string_value s) <;> simp
    | intVal n =>
      show (if (if k = "date_of_birth" then validate_birth_date_value today (.intVal n) else true)
            then validate_metadata today rest else false)
        = ((if k = "date_of_birth" then validate_birth_date_value today (.intVal n) else true)
            && allOk today rest)
      rw [hrest]
      cases (if k = "date_of_birth" then validate_birth_date_value today (.intVal n) else true) <;> simp
    | boolVal b =>
      show (if (if k = "date_of_birth" then validate_birth_date_value today (.boolVal b) else true)
            then validate_metadata today rest else false)
        = ((if k = "date_of_birth" then validate_birth_date_value today (.boolVal b) else true)
            && allOk today rest)
      rw [hrest]
      cases (if k = "date_of_birth" then validate_birth_date_value today (.boolVal b) else true) <;> simp
    | nullVal =>
      show (if (if k = "date_of_birth" then validate_birth_date_value today .nullVal else true)
            then validate_metadata today rest else false)
        = ((if k = "date_of_birth" then validate_birth_date_value today .nullVal else true)
            && allOk today rest)
      rw [hrest]
      cases (if k = "date_of_birth" then validate_birth_date_value today .nullVal else true) <;> simp
    | listVal xs =>
      show (if (if k = "date_of_birth" then validate_birth_date_value today (.listVal xs) else true)
            then validate_metadata today rest else false)
        = ((if k = "date_of_birth" then validate_birth_date_value today (.listVal xs) else true)
            && allOk today rest)
      rw [hrest]
      cases (if k = "date_of_birth" then validate_birth_date_value today (.listVal xs) else true) <;> simp

/-- The tree has a `date_of_birth` entry with a non-dictionary value at
some depth (validated by the age rule rather than by recursion). -/
def hasBirth : MEntries → Bool
  | .nil => false
  | .cons _ (.dict sub) rest => hasBirth sub || hasBirth rest
  | .cons k _ rest => decide (k = "date_of_birth") || hasBirth rest

/-- Relates two metadata trees that agree everywhere except that every
(non-dictionary) `date_of_birth` value has had only its birth year
changed, making the computed age exactly 39. -/
inductive EFlip (today : PyDate) : MEntries → MEntries → Prop where
  | nil : EFlip today .nil .nil
  | consDict (k : String) (s₁ s₂ r₁ r₂ : MEntries) :
      EFlip today s₁ s₂ → EFlip today r₁ r₂ →
      EFlip today (.cons k (.dict s₁) r₁) (.cons k (.dict s₂) r₂)
  | consBirth (s₁ s₂ : String) (b₁ b₂ : PyDate) (r₁ r₂ : MEntries) :
      parse_date_string s₁ = some b₁ →
      parse_date_string s₂ = some b₂ →
      b₂.month = b₁.month → b₂.day = b₁.day →
      calculate_age today b₂ = 39 →
      EFlip today r₁ r₂ →
      EFlip today (.cons "date_of_birth" (.str s₁) r₁) (.cons "date_of_birth" (.str s₂) r₂)
  | consLeaf (k : String) (v : MVal) (r₁ r₂ : MEntries) :
      k ≠ "date_of_birth" → (∀ sub, v ≠ .dict sub) →
      EFlip today r₁ r₂ →
      EFlip today (.cons k v r₁) (.cons k v r₂)

theorem allOk_false_of_flip {today : PyDate} {t₁ t₂ : MEntries}
    (hf : EFlip today t₁ t₂) :
    hasBirth t₁ = true → allOk today t₂ = false := by
  induction hf with
  | nil =>
    intro h
    exact Bool.noConfusion h
  | consDict k s₁ s₂ r₁ r₂ hs hr ihs ihr =>
    intro h
    have h' : (hasBirth s₁ || hasBirth r₁) = true := h
    show (allOk today s₂ && allOk today r₂) = false
    rcases Bool.or_eq_true_iff.mp h' with h1 | h2
    · rw [ihs h1]
      simp
    · rw [ihr h2]
      simp
  | consBirth s₁ s₂ b₁ b₂ r₁ r₂ hp₁ hp₂ hm hd hage hr ih =>
    intro _
    have his : is_date_string s₂ = true := by
      unfold is_date_string
      rw [hp₂]
      rfl
    have hb : validate_birth_date_value today (.str s₂) = false := by
      show (if is_date_string s₂ then
              match parse_date_string s₂ with
              | some birth_date => decide (calculate_age today birth_date ≥ (MIN_AGE : Int))
              | none => false
            else false) = false
      rw [his]
      simp only [if_true]
      rw [hp₂]
      have : ¬(calculate_age today b₂ ≥ (MIN_AGE : Int)) := by
        rw [hage]
        decide
      simp [this]
    have he : entryOk today "date_of_birth" (.str s₂) = false := by
      show (if "date_of_birth" = "date_of_birth" then validate_birth_date_value today (.str s₂)
            else validate_string_value s₂) = false
      rw [if_pos rfl]
      exact hb
    show (entryOk today "date_of_birth" (.str s₂) && allOk today r₂) = false
    rw [he]
    simp
  | consLeaf k v r₁ r₂ hk hv hr ih =>
    intro h
    have hbr : hasBirth r₁ = true := by
      cases v with
      | dict sub => exact absurd rfl (hv sub)
      | str s =>
        have h' : (decide (k = "date_of_birth") || hasBirth r₁) = true := h
        rw [decide_eq_false hk] at h'
        simpa using h'
      | intVal n =>
        have h' : (decide (k = "date_of_birth") || hasBirth r₁) = true := h
        rw [decide_eq_false hk] at h'
        simpa using h'
      | boolVal b =>
        have h' : (decide (k = "date_of_birth") || hasBirth r₁) = true := h
        rw [decide_eq_false hk] at h'
        simpa using h'
      | nullVal =>
        have h' : (decide (k = "date_of_birth") || hasBirth r₁) = true := h
        rw [decide_eq_false hk] at h'
        simpa using h'
      | listVal xs =>
        have h' : (decide (k = "date_of_birth") || hasBirth r₁) = true := h
        rw [decide_eq_false hk] at h'
        simpa using h'
    show (entryOk today k v && allOk today r₂) = false
    rw [ih hbr]
    simp

/-- C7: for every metadata tree whose `date_of_birth` values parse under
the fixed formats with computed age at least 40 and whose other fields
pass their rules (`allOk`), `validate_metadata` returns success; and for
every tree obtained from it by changing only the birth year so that the
computed age becomes 39 (`EFlip`, which also requires the new value still
to parse — so the failure is the age rule, not unparseability), the
result flips to failure. -/
theorem validate_metadata_age_flip :
    ∀ (today : PyDate) (t₁ t₂ : MEntries),
      allOk today t₁ = true → EFlip today t₁ t₂ → hasBirth t₁ = true →
      validate_metadata today t₁ = true ∧ validate_metadata today t₂ = false := by
  intro today t₁ t₂ hok hf hb
  constructor
  · rw [validate_eq_allOk today t₁]
    exact hok
  · rw [validate_eq_allOk today t₂]
    exact allOk_false_of_flip hf hb

/-- Witness for C7: with today = 2026-10-12, the tree
`{"name": "John", "date_of_birth": "1980-01-15"}` (age 46) validates,
and changing only the birth year to 1987 (age 39) flips the result. -/
theorem validate_metadata_age_flip_witness :
    validate_metadata ⟨2026, 10, 12, 0, 0, 0⟩
      (.cons "name" (.str "John") (.cons "date_of_birth" (.str "1980-01-15") .nil)) = true
    ∧ validate_metadata ⟨2026, 10, 12, 0, 0, 0⟩
      (.cons "name" (.str "John") (.cons "date_of_birth" (.str "1987-01-15") .nil)) = false :=
  validate_metadata_age_flip ⟨2026, 10, 12, 0, 0, 0⟩
    (.cons "name" (.str "John") (.cons "date_of_birth" (.str "1980-01-15") .nil))
    (.cons "name" (.str "John") (.cons "date_of_birth" (.str "1987-01-15") .nil))
    (by decide)
    (EFlip.consLeaf "name" (.str "John") _ _ (by decide)
      (fun sub h => MVal.noConfusion h)
      (EFlip.consBirth "1980-01-15" "1987-01-15"
        ⟨1980, 1, 15, 0, 0, 0⟩ ⟨1987, 1, 15, 0, 0, 0⟩ .nil .nil
        (by decide) (by decide) rfl rfl (by decide) EFlip.nil))
    (by decide)

/-! ## InputValidator (`src/Pipeline/InputValidator.py`) -/

def VALID_INPUT_KEYS : List String := ["context_path", "results_path"]

/-- `set(valid_keys) == set(input_dict.keys())`. -/
def setEqKeys (a b : List String) : Bool :=
  a.all (fun k => decide (k ∈ b)) && b.all (fun k => decide (k ∈ a))

/-- `Path(context_path).name`: the last non-empty path segment. -/
def pathName (s : String) : String :=
  String.mk (((splitChar '/' s.data).filter (fun seg => decide (seg ≠ []))).getLastD [])

/-- Python `str.replace("urn:", "")`, scanning left to right. -/
def stripUrn : List Char → List Char
  | 'u' :: 'r' :: 'n' :: ':' :: rest => stripUrn rest
  | c :: rest => c :: stripUrn rest
  | [] => []

/-- Python `str.replace("uuid:", "")`, scanning left to right. -/
def stripUuidTag : List Char → List Char
  | 'u' :: 'u' :: 'i' :: 'd' :: ':' :: rest => stripUuidTag rest
  | c :: rest => c :: stripUuidTag rest
  | [] => []

/-- Python `str.strip(...)` over the two brace characters. -/
def stripBracesEnds (cs : List Char) : List Char :=
  ((cs.dropWhile (fun c => c = '\x7b' ∨ c = '\x7d')).reverse.dropWhile
    (fun c => c = '\x7b' ∨ c = '\x7d')).reverse

def isHexDigit (c : Char) : Bool :=
  ('0' ≤ c && c ≤ '9') || ('a' ≤ c && c ≤ 'f') || ('A' ≤ c && c ≤ 'F')

/-- `uuid.UUID(patient_uuid)` succeeds: the stdlib strips `urn:`,
`uuid:`, surrounding braces and all hyphens, then requires exactly 32
hexadecimal digits.  (Exotic `int(..., 16)` spellings such as an `0x`
prefix or grouping underscores are not modelled; the claims only use
canonical UUID strings, and claim C4 takes this check's success as a
hypothesis.) -/
def pyUUIDvalid (s : String) : Bool :=
  let h := stripBracesEnds (stripUuidTag (stripUrn s.data))
  let h := h.filter (fun c => decide (c ≠ '-'))
  decide (h.length = 32) && h.all isHexDigit

structure ValidPaths where
  dna_path : String
  metadata_path : String
  context_path : String
  output_path : String
  deriving DecidableEq, Repr

/-- The filesystem/JSON facts that `InputValidator.validate` observes
about one input descriptor. -/
structure InputEnv where
  input_path : String
  inputFileExists : Bool
  jsonOk : Bool
  keys : List String
  context_path : String
  results_path : String
  contextExists : Bool
  dnaFileExists : Bool
  metadataFileExists : Bool
  deriving DecidableEq, Repr

/-- `InputValidator.validate` (InputValidator.py lines 25-62).  Note that
the final check (line 59) raises `InputFileDoesNotExist(context_path)`
when either data file is missing — not `DataFileDoesNotExist`, which is
declared in `ValidateExceptions.py` but never raised anywhere.  A
malformed JSON descriptor raises `json.JSONDecodeError`, which the
`try` (catching only `FileNotFoundError`) lets propagate. -/
def InputValidator.validate (env : InputEnv) : Except PyExc (ValidPaths × String) :=
  if ¬env.inputFileExists then .error (.inputFileDoesNotExist env.input_path)
  else if ¬env.jsonOk then .error (.jsonDecodeError env.input_path)
  else if ¬(setEqKeys VALID_INPUT_KEYS env.keys) then .error (.invalidInputKeys env.input_path)
  else
    let patient_uuid := pathName env.context_path
    if ¬(pyUUIDvalid patient_uuid) then .error (.invalidUUID patient_uuid)
    else if ¬env.contextExists then .error (.contextPathDoesNotExist env.context_path)
    else if ¬env.dnaFileExists ∨ ¬env.metadataFileExists then
      .error (.inputFileDoesNotExist env.context_path)
    else
      .ok (⟨env.context_path ++ "/" ++ patient_uuid ++ "_dna.txt",
            env.context_path ++ "/" ++ patient_uuid ++ "_dna.json",
            env.context_path, env.results_path⟩, patient_uuid)

/-- C4 counterexample: a descriptor passing the JSON, key-set, UUID and
context-path checks whose context directory lacks the `_dna.txt` file
fails with `InputFileDoesNotExist` (carrying the context path), not with
`DataFileDoesNotExist` as the claim states. -/
theorem validate_missing_data_file_error_kind :
    InputValidator.validate
      { input_path := "/tmp/input.json", inputFileExists := true, jsonOk := true,
        keys := ["context_path", "results_path"],
        context_path := "/data/12345678-1234-5678-1234-567812345678",
        results_path := "/tmp/out.json", contextExists := true,
        dnaFileExists := false, metadataFileExists := true }
      = .error (.inputFileDoesNotExist "/data/12345678-1234-5678-1234-567812345678")
    ∧ InputValidator.validate
      { input_path := "/tmp/input.json", inputFileExists := true, jsonOk := true,
        keys := ["context_path", "results_path"],
        context_path := "/data/12345678-1234-5678-1234-567812345678",
        results_path := "/tmp/out.json", contextExists := true,
        dnaFileExists := false, metadataFileExists := true }
      ≠ .error (.dataFileDoesNotExist "/data/12345678-1234-5678-1234-567812345678") := by
  constructor
  · rfl
  · intro h
    rw [show InputValidator.validate
        { input_path := "/tmp/input.json", inputFileExists := true, jsonOk := true,
          keys := ["context_path", "results_path"],
          context_path := "/data/12345678-1234-5678-1234-567812345678",
          results_path := "/tmp/out.json", contextExists := true,
          dnaFileExists := false, metadataFileExists := true }
        = .error (.inputFileDoesNotExist "/data/12345678-1234-5678-1234-567812345678") from rfl] at h
    injection h with h2
    exact PyExc.noConfusion h2

/-- C4 (amended): for every descriptor that passes JSON loading, key-set,
UUID, and context-path-existence checks but whose context directory lacks
`{uuid}_dna.txt` or `{uuid}_dna.json`, path resolution fails with the
`InputFileDoesNotExist` error kind carrying the context path (the same
class used for a missing descriptor file); `DataFileDoesNotExist` exists
in the error taxonomy but is never raised. -/
theorem validate_missing_data_files_raise_input_file_missing (env : InputEnv) :
    env.inputFileExists = true → env.jsonOk = true →
    setEqKeys VALID_INPUT_KEYS env.keys = true →
    pyUUIDvalid (pathName env.context_path) = true →
    env.contextExists = true →
    (env.dnaFileExists = false ∨ env.metadataFileExists = false) →
    InputValidator.validate env = .error (.inputFileDoesNotExist env.context_path) := by
  intro h1 h2 h3 h4 h5 h6
  rcases h6 with h6 | h6 <;>
    simp [InputValidator.validate, h1, h2, h3, h4, h5, h6]

/-- Witness for amended C4, discharging its hypotheses on the concrete
missing-`_dna.json` variant of the descriptor. -/
theorem validate_missing_data_files_witness :
    InputValidator.validate
      { input_path := "/tmp/input.json", inputFileExists := true, jsonOk := true,
        keys := ["results_path", "context_path"],
        context_path := "/data/12345678-1234-5678-1234-567812345678",
        results_path := "/tmp/out.json", contextExists := true,
        dnaFileExists := true, metadataFileExists := false }
      = .error (.inputFileDoesNotExist "/data/12345678-1234-5678-1234-567812345678") :=
  validate_missing_data_files_raise_input_file_missing
    { input_path := "/tmp/input.json", inputFileExists := true, jsonOk := true,
      keys := ["results_path", "context_path"],
      context_path := "/data/12345678-1234-5678-1234-567812345678",
      results_path := "/tmp/out.json", contextExists := true,
      dnaFileExists := true, metadataFileExists := false }
    rfl rfl (by decide) (by decide) rfl (Or.inr rfl)

/-! ## Persistence (`src/Pipeline/Load.py`, `src/Pipeline/Loader.py`) and
the status-code translator (`src/Exceptions/StatusCodeTranslator.py`) -/

/-- The output record assembled by the persistence step (`output` dict in
`Load.create_output` / `Loader.load`). -/
structure OutputRecord where
  start_at : String
  end_at : String
  context_path : String
  results_path : String
  participant_id : String
  txt : DNAResult
  json : MEntries

/-- `Load.create_output` (Load.py lines 15-57; `Loader.load` in
Loader.py lines 5-28 is the same shape): builds the output dictionary,
then `try: json.dump(...); return output; except Exception: print(...);
return None`.  `writeOk` abstracts whether `open`/`json.dump` raised.
On a write failure the function prints and returns `None` — no exception
of any kind reaches the caller. -/
def Load.create_output (writeOk : Bool) (meta_data : MEntries) (dna_data : DNAResult)
    (paths : ValidPaths) (start_time end_time participant_id : String) :
    Option OutputRecord :=
  let output : OutputRecord :=
    ⟨start_time, end_time, paths.context_path, paths.output_path,
     participant_id, dna_data, meta_data⟩
  if writeOk then some output else none

/-- C3 (code bug): at a record whose write fails (the
`/nonexistent/directory/output.json` output path of
`tests/unit/test_loader.py`), the persisting component catches the
exception and returns `None` — it surfaces no typed error, while its own
unit tests expect a raised `LoaderException` and the spec requires a
typed error. -/
theorem create_output_swallows_write_failure :
    Load.create_output false .nil
      { sequences := [], most_common_codon := none, lcs := emptyLCS }
      ⟨"/tmp/dna", "/tmp/meta", "/tmp/ctx", "/nonexistent/directory/output.json"⟩
      "t0" "t1" "test-error-123" = none := rfl

/-- Modelled from the spec: the `Loader.create_output` that
`ETLOrchestrator.orchestrate` calls (line 71) is missing from src/ —
`src/Pipeline/Loader.py` defines only `load`, and the
`Exceptions/LoaderExceptions.py` module imported by `Constants.py` and
`tests/unit/test_loader.py` is absent.  Per spec §4.5 and those tests,
the intended loader persists the record and raises the typed
`LoaderException` on write failure; this definition is used for the
pipeline-level claims C1 and C2. -/
def Loader.create_output (writeOk : Bool) (meta_data : MEntries) (dna_data : DNAResult)
    (paths : ValidPaths) (start_time end_time participant_id : String) :
    Except PyExc OutputRecord :=
  if writeOk then
    .ok ⟨start_time, end_time, paths.context_path, paths.output_path,
         participant_id, dna_data, meta_data⟩
  else .error (.loaderException participant_id)

/-- `str(e)` for each exception class (the message formats of
`ValidateExceptions.py` / `LoadExceptions.py`; runtime exceptions carry
their own text). -/
def excMessage : PyExc → String
  | .inputFileDoesNotExist p => "Input file does not exist: " ++ p
  | .invalidInputKeys p => "Input file don't match valid keys: " ++ p
  | .invalidUUID u => "Invalid UUID: " ++ u
  | .contextPathDoesNotExist p => "Context path does not exist: " ++ p
  | .dataFileDoesNotExist p => "Data file does not exist in: " ++ p
  | .loaderException pid => "Failed to load data for participant " ++ pid
  | .jsonDecodeError p => "Expecting value: " ++ p
  | .zeroDivisionError => "division by zero"

/-- Membership in the `valid_exceptions` list the orchestrator passes to
the translator (`Constants.py`): all application exception classes;
runtime exceptions (`json.JSONDecodeError`, `ZeroDivisionError`) are not
in it. -/
def isRecognized : PyExc → Bool
  | .jsonDecodeError _ => false
  | .zeroDivisionError => false
  | _ => true

/-- `StatusCodeExceptionTranslator.translate_custom_exceptions`: status
code 1 for every exception; recognized classes keep `str(e)`, anything
else is wrapped as an unknown exception, so the message is always
non-empty. -/
def translate_custom_exceptions (e : PyExc) : Nat × String :=
  if isRecognized e then (1, excMessage e)
  else (1, "Unknown exception: " ++ excMessage e)

/-! ## ETLOrchestrator (`src/Pipeline/ETLOrchestrator.py`) -/

/-- Everything one `orchestrate` call observes: the descriptor
environment, the two extracted files, the processor state, the clock and
the write outcome. -/
structure RunEnv where
  input : InputEnv
  metadataJsonOk : Bool
  metadata : MEntries
  dnaText : String
  codon_frequencies : CodonDict
  writeOk : Bool
  today : PyDate
  start_time : String
  end_time : String

/-- `ETLOrchestrator.orchestrate`.  The pair is the returned
`(status_code, message)`; the `Option OutputRecord` is the record written
to `results_path` (`none` when nothing was persisted).  Line 63 of the
source calls `self.metadata_validator.validate_metadata(metadata)` as a
bare statement: `validate_metadata` returns a `bool` and raises nothing,
and the orchestrator discards that bool — mirrored here by the unused
`let` binding. -/
def orchestrate (env : RunEnv) : (Nat × String) × Option OutputRecord :=
  match InputValidator.validate env.input with
  | .error e => (translate_custom_exceptions e, none)
  | .ok (verified_paths, participant_id) =>
    if ¬env.metadataJsonOk then
      (translate_custom_exceptions (.jsonDecodeError verified_paths.metadata_path), none)
    else
      let metadata := env.metadata
      let dna_data := extract_dna env.dnaText
      let _ := validate_metadata env.today metadata
      let transformed_metadata := remove_private_keys metadata
      match transform_dna env.codon_frequencies dna_data with
      | .error e => (translate_custom_exceptions e, none)
      | .ok (transformed_dna, _) =>
        match Loader.create_output env.writeOk transformed_metadata transformed_dna
            verified_paths env.start_time env.end_time participant_id with
        | .error e => (translate_custom_exceptions e, none)
        | .ok record =>
          ((0, "Pipline completed for participant ID: " ++ participant_id), some record)

/-- A run with valid paths and files whose metadata fails the age rule
(`date_of_birth` 2010-01-01, age 16 at today 2026-10-12), as in the
integration test `test_orchestrate_invalid_metadata_age`. -/
def envC1 : RunEnv :=
  { input := { input_path := "/tmp/in1.json", inputFileExists := true, jsonOk := true,
               keys := ["context_path", "results_path"],
               context_path := "/data/12345678-1234-5678-1234-567812345678",
               results_path := "/tmp/out1.json", contextExists := true,
               dnaFileExists := true, metadataFileExists := true },
    metadataJsonOk := true,
    metadata := .cons "participant_id" (.str "test-123")
      (.cons "name" (.str "Too Young")
        (.cons "date_of_birth" (.str "2010-01-01")
          (.cons "age" (.intVal 13)
            (.cons "location" (.str "Boston") .nil)))),
    dnaText := "ATCGCGATCG\nGGCATC",
    codon_frequencies := [],
    writeOk := true,
    today := ⟨2026, 10, 12, 0, 0, 0⟩,
    start_time := "2026-10-12 10:00:00.000001",
    end_time := "2026-10-12 10:00:00.004200" }

/-- C1 (code bug): on a run whose metadata tree fails the
`MetaDataValidator` age rule, `orchestrate` does NOT transition to a
failed state: the `bool` returned by `validate_metadata` is discarded at
ETLOrchestrator.py line 63 (and `validate_metadata` raises nothing), so
the run returns status code 0 with the success message and persists an
output record — contradicting the spec's `Failed(kind)` transition and
the repository's own integration test
`test_orchestrate_invalid_metadata_age`, which asserts status 1. -/
theorem orchestrate_ignores_invalid_metadata :
    validate_metadata envC1.today envC1.metadata = false
    ∧ (orchestrate envC1).1
        = (0, "Pipline completed for participant ID: 12345678-1234-5678-1234-567812345678")
    ∧ (orchestrate envC1).2.isSome = true :=
  ⟨by decide, by decide, by decide⟩

/-- A fully successful run: valid descriptor, valid metadata, non-empty
sequences, successful write. -/
def envRunOk : RunEnv :=
  { input := { input_path := "/tmp/in2.json", inputFileExists := true, jsonOk := true,
               keys := ["context_path", "results_path"],
               context_path := "/data/aaaaaaaa-bbbb-cccc-dddd-eeeeeeeeffff",
               results_path := "/tmp/out2.json", contextExists := true,
               dnaFileExists := true, metadataFileExists := true },
    metadataJsonOk := true,
    metadata := .cons "name" (.str "Alice")
      (.cons "date_of_birth" (.str "1980-01-01") .nil),
    dnaText := "ATCGCG\nGGCTTA",
    codon_frequencies := [],
    writeOk := true,
    today := ⟨2026, 10, 12, 0, 0, 0⟩,
    start_time := "2026-10-12 11:00:00.000001",
    end_time := "2026-10-12 11:00:00.004200" }

/-- The same run with a descriptor file that does not exist: path
validation fails. -/
def envRunMissingInput : RunEnv :=
  { envRunOk with
    input :=
      { input_path := "/tmp/missing.json", inputFileExists := false, jsonOk := true,
        keys := ["context_path", "results_path"],
        context_path := "/data/aaaaaaaa-bbbb-cccc-dddd-eeeeeeeeffff",
        results_path := "/tmp/out2.json", contextExists := true,
        dnaFileExists := true, metadataFileExists := true } }

/-- The same run with metadata violating the `DateOutOfRange` rule
(a date-typed string with year 2030, outside [2014, 2024]). -/
def envRunBadMeta : RunEnv :=
  { envRunOk with metadata := .cons "scan_date" (.str "2030-01-01") .nil }

/-- C2 (code bug): when every stage succeeds, `orchestrate` returns
status 0 with a message containing the participant identifier, and a
path-validation failure does return status 1 with the exception's
message; but the claim's second half — "every failing run returns a
non-zero status" — is violated: a run whose metadata-validation stage
fails still returns status 0 (and persists output), because
ETLOrchestrator.py line 63 discards `validate_metadata`'s result. -/
theorem orchestrate_status_code_contract :
    (orchestrate envRunOk).1
      = (0, "Pipline completed for participant ID: aaaaaaaa-bbbb-cccc-dddd-eeeeeeeeffff")
    ∧ ("aaaaaaaa-bbbb-cccc-dddd-eeeeeeeeffff".data <:+: (orchestrate envRunOk).1.2.data)
    ∧ (orchestrate envRunOk).2.isSome = true
    ∧ (orchestrate envRunMissingInput).1
      = (1, "Input file does not exist: /tmp/missing.json")
    ∧ (orchestrate envRunMissingInput).2.isSome = false
    ∧ validate_metadata envRunBadMeta.today envRunBadMeta.metadata = false
    ∧ (orchestrate envRunBadMeta).1.1 = 0 :=
  ⟨by decide, by decide, by decide, by decide, by decide, by decide, by decide⟩
